import Mathlib

/-!
Verification of the gradient-descent tutorial notebooks
(`03_trivial_problem_theano.ipynb` and `04_music_genre_prediction_theano.ipynb`).

Machine floating-point values are embedded as exact rationals (`ℚ`) for
the concrete computations and as reals (`ℝ`) where transcendental
functions (`exp`) or derivatives are involved.  Theano's symbolic
`theano.tensor.grad` computes the exact mathematical derivative of the
cost expression, so gradients are embedded as the closed-form derivative
of the embedded cost.
-/

namespace Trivial

/-- Constant `LEARNING_RATE = 0.6` from `03_trivial_problem_theano.ipynb`. -/
def LEARNING_RATE : ℚ := 3/5

/-- Constant `NUM_UPDATES = 10` from `03_trivial_problem_theano.ipynb`.
The training loop runs `NUM_UPDATES + 1 = 11` iterations. -/
def NUM_UPDATES : ℕ := 10

/-- The fixed input vector `[1.0, 0.5]` fed to `f` at every iteration. -/
def xInput : List ℚ := [1, 1/2]

/-- The fixed expected output `20.0` fed to `f` at every iteration. -/
def target : ℚ := 20

/-- Initial weights: `W = theano.shared(numpy.asarray([0.2, 0.7]), 'W')`. -/
def W0 : List ℚ := [1/5, 7/10]

/-- `y = (x * W).sum()`: elementwise product followed by a sum. -/
def dotQ (x w : List ℚ) : ℚ := (List.zipWith (· * ·) x w).sum

/-- `cost = theano.tensor.sqr(target - y)`. -/
def cost (w : List ℚ) : ℚ := (target - dotQ xInput w)^2

/-- `gradients = theano.tensor.grad(cost, [W])`: the exact derivative of
`(target - (x * W).sum())^2` in each weight component, which is
`-2 * x_i * (target - x·w)` (established over ℝ in `Grad.gradient_ok`). -/
def gradients (w : List ℚ) : List ℚ :=
  xInput.map (fun xi => -(2 * xi * (target - dotQ xInput w)))

/-- `W_updated = W - LEARNING_RATE * gradients[0]`, applied simultaneously
to all components by `theano.function(..., updates=[(W, W_updated)])`. -/
def step (w : List ℚ) : List ℚ :=
  List.zipWith (fun wi gi => wi - LEARNING_RATE * gi) w (gradients w)

/-- The weight vector after `n` update steps of the training loop. -/
def iterW : ℕ → List ℚ
  | 0 => W0
  | n + 1 => step (iterW n)

/-- The value `y` printed as "Output before update `n+1`": the network
output computed from the weights before the `(n+1)`-th update. -/
def outputBefore (n : ℕ) : ℚ := dotQ xInput (iterW n)

end Trivial

namespace GD

/-- One elementwise parameter update,
`updated_param = param - gradients[param_idx] * LEARNING_RATE`
from `04_music_genre_prediction_theano.ipynb`, applied position by
position over the parameter list (`for param_idx, param in
enumerate(params)`). -/
def applyUpdates (lr : ℚ) (params grads : List ℚ) : List ℚ :=
  List.zipWith (fun p g => p - g * lr) params grads

/-- One training step as compiled by `theano.function([x, target],
updates=updates)`: all gradients are evaluated on the pre-update
parameter values, then every parameter is replaced at once. -/
def trainStep (lr : ℚ) (gradFn : List ℚ → List ℚ) (params : List ℚ) : List ℚ :=
  applyUpdates lr params (gradFn params)

end GD

namespace Trivial

lemma iterW_succ (n : ℕ) : iterW (n + 1) = step (iterW n) := rfl

lemma iterW1 : iterW 1 = [1177/50, 1237/100] := by
  have h : iterW 1 = step (iterW 0) := rfl
  rw [h]
  norm_num [iterW, step, gradients, dotQ, xInput, W0, target, LEARNING_RATE]

lemma iterW2 : iterW 2 = [1187/100, 1307/200] := by
  have h : iterW 2 = step (iterW 1) := rfl
  rw [h, iterW1]
  norm_num [step, gradients, dotQ, xInput, target, LEARNING_RATE]

lemma iterW3 : iterW 3 = [3541/200, 3781/400] := by
  have h : iterW 3 = step (iterW 2) := rfl
  rw [h, iterW2]
  norm_num [step, gradients, dotQ, xInput, target, LEARNING_RATE]

lemma iterW4 : iterW 4 = [1183/80, 1279/160] := by
  have h : iterW 4 = step (iterW 3) := rfl
  rw [h, iterW3]
  norm_num [step, gradients, dotQ, xInput, target, LEARNING_RATE]

lemma iterW5 : iterW 5 = [12997/800, 13957/1600] := by
  have h : iterW 5 = step (iterW 4) := rfl
  rw [h, iterW4]
  norm_num [step, gradients, dotQ, xInput, target, LEARNING_RATE]

lemma iterW6 : iterW 6 = [24827/1600, 26747/3200] := by
  have h : iterW 6 = step (iterW 5) := rfl
  rw [h, iterW5]
  norm_num [step, gradients, dotQ, xInput, target, LEARNING_RATE]

lemma iterW7 : iterW 7 = [50821/3200, 54661/6400] := by
  have h : iterW 7 = step (iterW 6) := rfl
  rw [h, iterW6]
  norm_num [step, gradients, dotQ, xInput, target, LEARNING_RATE]

lemma iterW8 : iterW 8 = [4019/256, 21631/2560] := by
  have h : iterW 8 = step (iterW 7) := rfl
  rw [h, iterW7]
  norm_num [step, gradients, dotQ, xInput, target, LEARNING_RATE]

lemma iterW9 : iterW 9 = [202117/12800, 217477/25600] := by
  have h : iterW 9 = step (iterW 8) := rfl
  rw [h, iterW8]
  norm_num [step, gradients, dotQ, xInput, target, LEARNING_RATE]

lemma iterW10 : iterW 10 = [403067/25600, 433787/51200] := by
  have h : iterW 10 = step (iterW 9) := rfl
  rw [h, iterW9]
  norm_num [step, gradients, dotQ, xInput, target, LEARNING_RATE]

lemma iterW11 : iterW 11 = [807301/51200, 868741/102400] := by
  have h : iterW 11 = step (iterW 10) := rfl
  rw [h, iterW10]
  norm_num [step, gradients, dotQ, xInput, target, LEARNING_RATE]

lemma outB0 : outputBefore 0 = 11/20 := by
  norm_num [outputBefore, iterW, dotQ, xInput, W0]

lemma outB1 : outputBefore 1 = 1189/40 := by
  norm_num [outputBefore, iterW1, dotQ, xInput]

lemma outB2 : outputBefore 2 = 1211/80 := by
  norm_num [outputBefore, iterW2, dotQ, xInput]

lemma outB3 : outputBefore 3 = 3589/160 := by
  norm_num [outputBefore, iterW3, dotQ, xInput]

lemma outB4 : outputBefore 4 = 6011/320 := by
  norm_num [outputBefore, iterW4, dotQ, xInput]

lemma outB5 : outputBefore 5 = 13189/640 := by
  norm_num [outputBefore, iterW5, dotQ, xInput]

lemma outB6 : outputBefore 6 = 25211/1280 := by
  norm_num [outputBefore, iterW6, dotQ, xInput]

lemma outB7 : outputBefore 7 = 51589/2560 := by
  norm_num [outputBefore, iterW7, dotQ, xInput]

lemma outB8 : outputBefore 8 = 102011/5120 := by
  norm_num [outputBefore, iterW8, dotQ, xInput]

lemma outB9 : outputBefore 9 = 205189/10240 := by
  norm_num [outputBefore, iterW9, dotQ, xInput]

lemma outB10 : outputBefore 10 = 409211/20480 := by
  norm_num [outputBefore, iterW10, dotQ, xInput]

end Trivial

/-- C1: starting from inputs x=[1.0, 0.5], target 20.0, initial weights
w=[0.2, 0.7] and learning rate 0.6, applying the gradient-descent update
rule 11 times yields pre-update outputs whose distance to 20.0 strictly
decreases at every step (the last being within 0.025 of 20.0), and final
weights within 1% relative tolerance of w1=15.74 and w2=8.47. -/
theorem trivial_convergence_trace :
    (∀ k, k < 10 →
      |Trivial.outputBefore (k + 1) - 20| < |Trivial.outputBefore k - 20|) ∧
    |Trivial.outputBefore 10 - 20| < 1/40 ∧
    |(Trivial.iterW 11).getD 0 0 - 1574/100| ≤ 1574/100 * (1/100) ∧
    |(Trivial.iterW 11).getD 1 0 - 847/100| ≤ 847/100 * (1/100) := by
  refine ⟨?_, ?_, ?_, ?_⟩
  · intro k hk
    interval_cases k <;>
      norm_num [Trivial.outB0, Trivial.outB1, Trivial.outB2, Trivial.outB3,
        Trivial.outB4, Trivial.outB5, Trivial.outB6, Trivial.outB7,
        Trivial.outB8, Trivial.outB9, Trivial.outB10, abs_eq_max_neg, max_def]
  · norm_num [Trivial.outB10, abs_eq_max_neg, max_def]
  · norm_num [Trivial.iterW11, abs_eq_max_neg, max_def]
  · norm_num [Trivial.iterW11, abs_eq_max_neg, max_def]

/-- Witness for C1 at k = 3: the distance to 20 shrinks from the 4th to
the 5th pre-update output. -/
theorem trivial_convergence_trace_witness :
    3 < 10 ∧
      |Trivial.outputBefore (3 + 1) - 20| < |Trivial.outputBefore 3 - 20| :=
  ⟨by norm_num, trivial_convergence_trace.1 3 (by norm_num)⟩

namespace GD

lemma getD_zipWith (f : ℚ → ℚ → ℚ) (l1 l2 : List ℚ) (i : ℕ) (d : ℚ)
    (h1 : i < l1.length) (h2 : i < l2.length) :
    (List.zipWith f l1 l2).getD i d = f (l1.getD i d) (l2.getD i d) := by
  induction l1 generalizing l2 i with
  | nil => simp at h1
  | cons a t ih =>
    cases l2 with
    | nil => simp at h2
    | cons b t2 =>
      cases i with
      | zero => simp
      | succ n =>
        simp only [List.zipWith_cons_cons, List.getD_cons_succ]
        exact ih t2 n (by simpa using h1) (by simpa using h2)

end GD

/-- C2: one training update replaces each `parameters[i]` by
`parameters[i] - learning_rate * gradients[i]` elementwise, where every
gradient is evaluated at the same pre-update parameter list `params` and
all components are produced from that single pre-update state, so no
partially-updated value is read within the step. -/
theorem update_rule_simultaneous (lr : ℚ) (gradFn : List ℚ → List ℚ)
    (params : List ℚ) (i : ℕ) (h1 : i < params.length)
    (h2 : i < (gradFn params).length) :
    (GD.trainStep lr gradFn params).getD i 0 =
      params.getD i 0 - lr * (gradFn params).getD i 0 := by
  unfold GD.trainStep GD.applyUpdates
  rw [GD.getD_zipWith _ _ _ _ _ h1 h2]
  ring

/-- Witness for C2 with two parameters, gradient function doubling each
parameter, learning rate 1/2, index 0. -/
theorem update_rule_simultaneous_witness :
    0 < ([3, 5] : List ℚ).length ∧
    0 < (([3, 5] : List ℚ).map (· * 2)).length ∧
    (GD.trainStep (1/2) (fun l => l.map (· * 2)) [3, 5]).getD 0 0 =
      ([3, 5] : List ℚ).getD 0 0 -
        1/2 * (([3, 5] : List ℚ).map (· * 2)).getD 0 0 :=
  ⟨by norm_num, by norm_num,
    update_rule_simultaneous (1/2) (fun l => l.map (· * 2)) [3, 5] 0
      (by norm_num) (by norm_num)⟩

namespace Mlp

/-- `cost = theano.tensor.sqr(target - y)` from
`04_music_genre_prediction_theano.ipynb`: the elementwise squared
differences over the batch. -/
def costVec (targets preds : List ℚ) : List ℚ :=
  List.zipWith (fun t p => (t - p)^2) targets preds

/-- `cost = theano.tensor.mean(cost)`: the mean of the squared
differences. -/
def cost (targets preds : List ℚ) : ℚ :=
  (costVec targets preds).sum / (costVec targets preds).length

lemma costVec_self_zero :
    ∀ (ts ps : List ℚ), ts.length = ps.length →
      (∀ i, i < ts.length → ts.getD i 0 = ps.getD i 0) →
      costVec ts ps = List.replicate ts.length 0 := by
  intro ts
  induction ts with
  | nil => intro ps _ _; simp [costVec]
  | cons t ts ih =>
    intro ps hlen hfit
    cases ps with
    | nil => simp at hlen
    | cons p ps =>
      have h0 : t = p := by simpa using hfit 0 (by simp)
      have htail : costVec ts ps = List.replicate ts.length 0 :=
        ih ps (by simpa using hlen)
          (fun i hi => by simpa using hfit (i + 1) (by simpa using hi))
      simp [costVec, List.zipWith_cons_cons, h0, List.replicate_succ] at htail ⊢
      exact htail

end Mlp

/-- C4: the training loss is the mean over the batch of the squared
differences `(target - prediction)^2`, and on any batch where every
prediction equals its target the loss is exactly 0. -/
theorem mse_loss_zero_on_fit (targets preds : List ℚ)
    (hlen : targets.length = preds.length)
    (hfit : ∀ i, i < targets.length → targets.getD i 0 = preds.getD i 0) :
    Mlp.cost targets preds =
      (Mlp.costVec targets preds).sum / (Mlp.costVec targets preds).length ∧
    Mlp.cost targets preds = 0 := by
  refine ⟨rfl, ?_⟩
  rw [Mlp.cost, Mlp.costVec_self_zero targets preds hlen hfit]
  simp

/-- Witness for C4 on the batch with targets `[2, 3]` and predictions
`[2, 3]`. -/
theorem mse_loss_zero_on_fit_witness :
    ([2, 3] : List ℚ).length = ([2, 3] : List ℚ).length ∧
    Mlp.cost [2, 3] [2, 3] = 0 :=
  ⟨rfl, (mse_loss_zero_on_fit [2, 3] [2, 3] rfl (fun _ _ => rfl)).2⟩

namespace DataServer

/-- The positional labelling of `04_music_genre_prediction_theano.ipynb`:
`targets[idx] = 1.0` when the drawn index is at least half the
collection size (`train_idx >= self.train.shape[0]/2`, Python 2 integer
division), `0.0` otherwise. -/
def halfLabel (n idx : ℕ) : ℚ := if n / 2 ≤ idx then 1 else 0

/-- `DataServer.get_train_sample(batch_size)`: for each of `batch_size`
slots, draw an index from the training collection (`random.randrange`
modelled as an oracle `draw` giving the index of each slot), copy that
row into the inputs and attach the halves-rule label. -/
def get_train_sample (train : List (List ℚ)) (draw : ℕ → ℕ)
    (batch_size : ℕ) : List (List ℚ) × List ℚ :=
  ((List.range batch_size).map (fun k => train.getD (draw k) []),
   (List.range batch_size).map (fun k => halfLabel train.length (draw k)))

/-- `self.test_targets`: zeros with the second half
(`self.test_targets.shape[0]/2` onward) set to `1.0`. -/
def test_targets (n : ℕ) : List ℚ := (List.range n).map (halfLabel n)

/-- `DataServer.get_test()`: the whole held-out collection together with
its positional labels. -/
def get_test (test : List (List ℚ)) : List (List ℚ) × List ℚ :=
  (test, test_targets test.length)

lemma getD_map_range {α : Type} (f : ℕ → α) (d : α) {k n : ℕ} (h : k < n) :
    ((List.range n).map f).getD k d = f k := by
  rw [List.getD_eq_getElem _ _ (by simpa using h)]
  simp

end DataServer

/-- C5: a training batch of size `batch_size` is built by drawing one
index per slot from the whole training collection (with replacement:
the oracle `draw` is unconstrained, so repeated and arbitrary indices
are all realizable, and slot `k` never depends on other slots); each
drawn example receives label 0 when its index lies in the first half of
the collection and 1 otherwise; `get_test` deterministically returns
the entire held-out collection with labels derived by the same halves
rule. -/
theorem sampler_contract (train test : List (List ℚ)) (draw : ℕ → ℕ)
    (batch_size k i : ℕ) (hk : k < batch_size) (hi : i < test.length) :
    (DataServer.get_train_sample train draw batch_size).1.length = batch_size ∧
    (DataServer.get_train_sample train draw batch_size).2.length = batch_size ∧
    (DataServer.get_train_sample train draw batch_size).1.getD k [] =
      train.getD (draw k) [] ∧
    (DataServer.get_train_sample train draw batch_size).2.getD k 0 =
      (if train.length / 2 ≤ draw k then 1 else 0) ∧
    (DataServer.get_test test).1 = test ∧
    (DataServer.get_test test).2.length = test.length ∧
    (DataServer.get_test test).2.getD i 0 =
      (if test.length / 2 ≤ i then 1 else 0) := by
  refine ⟨by simp [DataServer.get_train_sample],
    by simp [DataServer.get_train_sample], ?_, ?_, rfl,
    by simp [DataServer.get_test, DataServer.test_targets], ?_⟩
  · exact DataServer.getD_map_range _ _ hk
  · rw [DataServer.get_train_sample]
    rw [DataServer.getD_map_range _ _ hk, DataServer.halfLabel]
  · rw [DataServer.get_test]
    show (DataServer.test_targets test.length).getD i 0 = _
    rw [DataServer.test_targets, DataServer.getD_map_range _ _ hi,
      DataServer.halfLabel]

/-- Witness for C5: two training rows, two held-out rows, an oracle that
always draws index 1 (second half), batch size 1, slot 0, held-out
index 1. -/
theorem sampler_contract_witness :
    0 < 1 ∧ 1 < ([[5], [6]] : List (List ℚ)).length ∧
    (DataServer.get_train_sample [[1], [2]] (fun _ => 1) 1).2.getD 0 0 =
      (if ([[1], [2]] : List (List ℚ)).length / 2 ≤ 1 then (1 : ℚ) else 0) :=
  ⟨by norm_num, by norm_num,
    (sampler_contract [[1], [2]] [[5], [6]] (fun _ => 1) 1 0 1
      (by norm_num) (by norm_num)).2.2.2.1⟩

namespace Eval

/-- `numpy.round` (used as `predictions.round()`): round half to even. -/
def roundHE (q : ℚ) : ℤ :=
  if q - ⌊q⌋ < 1/2 then ⌊q⌋
  else if 1/2 < q - ⌊q⌋ then ⌊q⌋ + 1
  else if ⌊q⌋ % 2 = 0 then ⌊q⌋ else ⌊q⌋ + 1

/-- `.clip(0, 1)` on an integer-valued prediction. -/
def clip01 (z : ℤ) : ℤ := min (max z 0) 1

/-- The implementation order from the notebook:
`predictions.round().clip(0, 1)`. -/
def roundThenClip (q : ℚ) : ℤ := clip01 (roundHE q)

/-- Clamp a real-valued prediction to the interval `[0, 1]`. -/
def clamp01 (q : ℚ) : ℚ := min (max q 0) 1

/-- Follows the spec's words ("[0,1] clamp then round to nearest
integer"): clamp first, then round. -/
def specClampThenRound (q : ℚ) : ℤ := roundHE (clamp01 q)

/-- The accuracy computed by the notebook:
`((predictions == targets)*1.0).sum()/float(targets.shape[0])`. -/
def performance (preds targets : List ℚ) : ℚ :=
  (List.zipWith (fun p t => if p = t then (1 : ℚ) else 0) preds targets).sum /
    targets.length

lemma floor_le_roundHE (q : ℚ) : ⌊q⌋ ≤ roundHE q := by
  unfold roundHE; split_ifs <;> omega

lemma roundHE_le_floor_add_one (q : ℚ) : roundHE q ≤ ⌊q⌋ + 1 := by
  unfold roundHE; split_ifs <;> omega

lemma roundHE_zero : roundHE 0 = 0 := by
  norm_num [roundHE]

lemma roundHE_one : roundHE 1 = 1 := by
  norm_num [roundHE]

lemma clip01_of_nonpos {z : ℤ} (h : z ≤ 0) : clip01 z = 0 := by
  unfold clip01
  rw [max_eq_right h, min_eq_left (by norm_num : (0 : ℤ) ≤ 1)]

lemma clip01_of_one_le {z : ℤ} (h : 1 ≤ z) : clip01 z = 1 := by
  unfold clip01
  rw [max_eq_left (by omega), min_eq_right h]

lemma clip01_of_mem {z : ℤ} (h0 : 0 ≤ z) (h1 : z ≤ 1) : clip01 z = z := by
  unfold clip01
  rw [max_eq_left h0, min_eq_left h1]

lemma roundThenClip_eq_spec (q : ℚ) : roundThenClip q = specClampThenRound q := by
  rcases lt_or_le q 0 with hneg | h0
  · have hf : ⌊q⌋ < 0 := Int.floor_lt.mpr (by exact_mod_cast hneg)
    have hr : roundHE q ≤ 0 := le_trans (roundHE_le_floor_add_one q) (by omega)
    have hcl : clamp01 q = 0 := by
      unfold clamp01
      rw [max_eq_right hneg.le, min_eq_left (by norm_num : (0 : ℚ) ≤ 1)]
    rw [roundThenClip, clip01_of_nonpos hr, specClampThenRound, hcl, roundHE_zero]
  · rcases le_or_lt q 1 with h1 | hbig
    · have hcl : clamp01 q = q := by
        unfold clamp01
        rw [max_eq_left h0, min_eq_left h1]
      have hfl : 0 ≤ ⌊q⌋ := Int.floor_nonneg.mpr h0
      have hru : roundHE q ≤ 1 := by
        rcases lt_or_eq_of_le h1 with hlt | heq
        · have : ⌊q⌋ = 0 := Int.floor_eq_zero_iff.mpr ⟨h0, hlt⟩
          have := roundHE_le_floor_add_one q
          omega
        · rw [heq, roundHE_one]
      have hrl : 0 ≤ roundHE q := le_trans hfl (floor_le_roundHE q)
      rw [roundThenClip, clip01_of_mem hrl hru, specClampThenRound, hcl]
    · have hf : 1 ≤ ⌊q⌋ := by
        rw [Int.le_floor]; exact_mod_cast hbig.le
      have hr : 1 ≤ roundHE q := le_trans hf (floor_le_roundHE q)
      have hcl : clamp01 q = 1 := by
        unfold clamp01
        rw [max_eq_left (le_trans (by norm_num) hbig.le), min_eq_right hbig.le]
      rw [roundThenClip, clip01_of_one_le hr, specClampThenRound, hcl, roundHE_one]

lemma matchSum_bounds :
    ∀ (ps ts : List ℚ),
      0 ≤ (List.zipWith (fun p t => if p = t then (1 : ℚ) else 0) ps ts).sum ∧
      (List.zipWith (fun p t => if p = t then (1 : ℚ) else 0) ps ts).sum ≤
        (List.zipWith (fun p t => if p = t then (1 : ℚ) else 0) ps ts).length := by
  intro ps
  induction ps with
  | nil => intro ts; simp
  | cons p ps ih =>
    intro ts
    cases ts with
    | nil => simp
    | cons t ts =>
      obtain ⟨ihl, ihr⟩ := ih ts
      constructor
      · simp only [List.zipWith_cons_cons, List.sum_cons]
        split_ifs <;> linarith
      · simp only [List.zipWith_cons_cons, List.sum_cons, List.length_cons]
        push_cast
        split_ifs <;> linarith

end Eval

/-- C6: rounding then clipping to `[0,1]` (the implementation) coincides
with clamping to `[0,1]` then rounding (the spec) on every rational
prediction, hence both orders yield identical accuracies on every
prediction vector. -/
theorem eval_order_equivalence :
    (∀ q : ℚ, Eval.roundThenClip q = Eval.specClampThenRound q) ∧
    (∀ preds targets : List ℚ,
      Eval.performance
        (preds.map (fun p => ((Eval.roundThenClip p : ℤ) : ℚ))) targets =
      Eval.performance
        (preds.map (fun p => ((Eval.specClampThenRound p : ℤ) : ℚ))) targets) := by
  refine ⟨Eval.roundThenClip_eq_spec, ?_⟩
  intro preds targets
  have hfun : (fun p => ((Eval.roundThenClip p : ℤ) : ℚ)) =
      (fun p => ((Eval.specClampThenRound p : ℤ) : ℚ)) := by
    funext p
    rw [Eval.roundThenClip_eq_spec]
  rw [hfun]

/-- C10: after round-then-clip every prediction is exactly 0 or 1, and
the reported accuracy always lies in `[0, 1]`. -/
theorem accuracy_bounds :
    (∀ q : ℚ, Eval.roundThenClip q = 0 ∨ Eval.roundThenClip q = 1) ∧
    (∀ preds targets : List ℚ,
      0 ≤ Eval.performance preds targets ∧
        Eval.performance preds targets ≤ 1) := by
  constructor
  · intro q
    rcases le_or_lt (Eval.roundHE q) 0 with h | h
    · exact Or.inl (Eval.clip01_of_nonpos h)
    · exact Or.inr (Eval.clip01_of_one_le h)
  · intro preds targets
    obtain ⟨hl, hr⟩ := Eval.matchSum_bounds preds targets
    constructor
    · exact div_nonneg hl (by positivity)
    · rcases Nat.eq_zero_or_pos targets.length with h0 | hpos
      · rw [Eval.performance, h0]
        rw [List.length_eq_zero.mp h0]
        simp
      · rw [Eval.performance, div_le_one (by exact_mod_cast hpos)]
        calc (List.zipWith (fun p t => if p = t then (1 : ℚ) else 0)
              preds targets).sum
            ≤ _ := hr
          _ ≤ (targets.length : ℚ) := by
              have := List.length_zipWith
                (fun p t => if p = t then (1 : ℚ) else 0) preds targets
              rw [this]
              exact_mod_cast Nat.min_le_right preds.length targets.length

namespace Loop

/-- The training loop of `04_music_genre_prediction_theano.ipynb`:
`for i in xrange(total): train(...)`, and after the update, when
`(i + 1) % k == 0`, run the evaluation (`test`) on the current
parameters and record its report.  `step` is one compiled `train` call
(parameter update), `ev` is one compiled `test` call (a pure function
of the parameters, compiled with no updates). -/
def trainLoop {σ α : Type} (step : σ → σ) (ev : σ → α) (k total : ℕ)
    (init : σ) : σ × List α :=
  (List.range total).foldl
    (fun acc i =>
      let s := step acc.1
      if (i + 1) % k = 0 then (s, acc.2 ++ [ev s]) else (s, acc.2))
    (init, [])

lemma trainLoop_zero {σ α : Type} (step : σ → σ) (ev : σ → α) (k : ℕ)
    (init : σ) : trainLoop step ev k 0 init = (init, []) := rfl

lemma trainLoop_step {σ α : Type} (step : σ → σ) (ev : σ → α) (k n : ℕ)
    (init : σ) :
    trainLoop step ev k (n + 1) init =
      (step (trainLoop step ev k n init).1,
       if (n + 1) % k = 0 then
         (trainLoop step ev k n init).2 ++
           [ev (step (trainLoop step ev k n init).1)]
       else (trainLoop step ev k n init).2) := by
  unfold trainLoop
  rw [List.range_succ, List.foldl_append, List.foldl_cons, List.foldl_nil]
  split_ifs with h <;> rfl

lemma trainLoop_fst {σ α : Type} (step : σ → σ) (ev : σ → α) (k n : ℕ)
    (init : σ) : (trainLoop step ev k n init).1 = step^[n] init := by
  induction n with
  | zero => rfl
  | succ n ih =>
    rw [trainLoop_step, ih, Function.iterate_succ_apply']

lemma trainLoop_snd {σ α : Type} (step : σ → σ) (ev : σ → α) (k n : ℕ)
    (init : σ) :
    (trainLoop step ev k n init).2 =
      ((List.range n).filter (fun i => (i + 1) % k = 0)).map
        (fun i => ev (step^[i + 1] init)) := by
  induction n with
  | zero => rfl
  | succ n ih =>
    rw [trainLoop_step, List.range_succ, List.filter_append]
    by_cases h : (n + 1) % k = 0
    · simp only [h, if_true]
      rw [trainLoop_fst]
      simp [h, ih, Function.iterate_succ_apply']
    · simp [h, ih]

lemma count_evals (k n : ℕ) :
    ((List.range n).filter (fun i => (i + 1) % k = 0)).length = n / k := by
  induction n with
  | zero => simp
  | succ n ih =>
    rw [List.range_succ, List.filter_append, List.length_append, ih]
    by_cases h : (n + 1) % k = 0
    · have hdvd : k ∣ n + 1 := Nat.dvd_of_mod_eq_zero h
      rw [Nat.succ_div]
      simp [h, hdvd]
    · have hndvd : ¬ k ∣ n + 1 := fun hd => h (Nat.mod_eq_zero_of_dvd hd)
      rw [Nat.succ_div]
      simp [h, hndvd]

end Loop

/-- C7: in a run of `total` updates with evaluation interval `k`, the
evaluation fires exactly at the steps whose completed count `i + 1` is a
multiple of `k` — `total / k` times in all — and the parameter
trajectory is exactly the `total`-fold iterate of the update step, the
same for every evaluation function, so evaluation never changes any
parameter. -/
theorem eval_schedule_and_purity {σ α : Type} (step : σ → σ) (ev : σ → α)
    (k total : ℕ) (init : σ) (_hk : 0 < k) :
    (Loop.trainLoop step ev k total init).1 = step^[total] init ∧
    (Loop.trainLoop step ev k total init).2 =
      ((List.range total).filter (fun i => (i + 1) % k = 0)).map
        (fun i => ev (step^[i + 1] init)) ∧
    (Loop.trainLoop step ev k total init).2.length = total / k :=
  ⟨Loop.trainLoop_fst step ev k total init,
   Loop.trainLoop_snd step ev k total init,
   by rw [Loop.trainLoop_snd, List.length_map, Loop.count_evals k total]⟩

/-- Witness for C7: six counting steps with evaluation interval 2
perform exactly 3 evaluations and end in state 6. -/
theorem eval_schedule_and_purity_witness :
    0 < 2 ∧
    (Loop.trainLoop (fun s => s + 1) (fun s : ℕ => s) 2 6 0).1 =
      (fun s => s + 1)^[6] 0 ∧
    (Loop.trainLoop (fun s => s + 1) (fun s : ℕ => s) 2 6 0).2 =
      ((List.range 6).filter (fun i => (i + 1) % 2 = 0)).map
        (fun i => (fun s => s + 1)^[i + 1] 0) ∧
    (Loop.trainLoop (fun s => s + 1) (fun s : ℕ => s) 2 6 0).2.length =
      6 / 2 :=
  ⟨by norm_num,
    eval_schedule_and_purity (fun s => s + 1) (fun s : ℕ => s) 2 6 0
      (by norm_num)⟩

namespace Act

/-- The rectifier of the MLP notebook:
`theano.tensor.switch(theano.tensor.gt(y, 0.0), y, 0.0)`. -/
def rectifier (y : ℚ) : ℚ := if 0 < y then y else 0

/-- `theano.tensor.nnet.nnet.sigmoid(y) = 1 / (1 + exp(-y))`. -/
noncomputable def sigmoid (v : ℝ) : ℝ := 1 / (1 + Real.exp (-v))

end Act

/-- C8: the rectifier output is nonnegative for every input, and the
sigmoid output is strictly between 0 and 1 for every (finite) real
input; both bounds hold elementwise when the activations are mapped
over a vector. -/
theorem activation_ranges :
    (∀ y : ℚ, 0 ≤ Act.rectifier y) ∧
    (∀ v : ℝ, 0 < Act.sigmoid v ∧ Act.sigmoid v < 1) := by
  constructor
  · intro y
    unfold Act.rectifier
    split_ifs with h
    · exact h.le
    · exact le_refl 0
  · intro v
    have he : 0 < Real.exp (-v) := Real.exp_pos (-v)
    have hd : 0 < 1 + Real.exp (-v) := by linarith
    constructor
    · exact div_pos one_pos hd
    · rw [Act.sigmoid, div_lt_one hd]
      linarith

namespace Grad

/-- `y = (x * W).sum()` over the reals: the dot product of the input
and weight vectors. -/
def dotR {n : ℕ} (x w : Fin n → ℝ) : ℝ := ∑ j, x j * w j

/-- `cost = theano.tensor.sqr(target - y)` over the reals. -/
def cost {n : ℕ} (x : Fin n → ℝ) (target : ℝ) (w : Fin n → ℝ) : ℝ :=
  (target - dotR x w)^2

lemma dotR_update {n : ℕ} (x w : Fin n → ℝ) (i : Fin n) (t : ℝ) :
    dotR x (Function.update w i t) =
      x i * t + ∑ j in Finset.univ.erase i, x j * w j := by
  unfold dotR
  rw [← Finset.add_sum_erase Finset.univ
    (fun j => x j * Function.update w i t j) (Finset.mem_univ i)]
  congr 1
  · rw [Function.update_same]
  · refine Finset.sum_congr rfl (fun j hj => ?_)
    rw [Function.update_noteq (Finset.ne_of_mem_erase hj)]

end Grad

/-- C3: for the linear model `y = w·x` with squared-error loss
`(target - y)^2`, the partial derivative of the loss in the weight
component `w i` — the derivative at `w i` of the loss as a function of
that coordinate alone — equals `-2 * x i * (target - w·x)`, at every
point `(x, target, w)`.  `theano.tensor.grad` computes exactly this
derivative. -/
theorem gradient_formula {n : ℕ} (x w : Fin n → ℝ) (target : ℝ) (i : Fin n) :
    HasDerivAt (fun t => Grad.cost x target (Function.update w i t))
      (-2 * x i * (target - Grad.dotR x w)) (w i) := by
  set s : ℝ := ∑ j in Finset.univ.erase i, x j * w j with hs
  have hbase : HasDerivAt (fun t : ℝ => target - (x i * t + s)) (-(x i)) (w i) := by
    have h1 : HasDerivAt (fun t : ℝ => x i * t) (x i) (w i) := by
      simpa using (hasDerivAt_id (w i)).const_mul (x i)
    simpa using (h1.add_const s).const_sub target
  have hpow := hbase.pow 2
  have hfun : (fun t => Grad.cost x target (Function.update w i t)) =
      (fun t : ℝ => (target - (x i * t + s))^2) := by
    funext t
    rw [Grad.cost, Grad.dotR_update]
  rw [hfun]
  have hdot : Grad.dotR x w = x i * w i + s := by
    conv_lhs => rw [← Function.update_eq_self i w]
    rw [Grad.dotR_update]
  convert hpow using 1
  rw [hdot]
  ring

namespace DT

/-- The element types relevant to the notebooks. -/
inductive NpDType where
  | float32
  | float64
deriving DecidableEq

/-- dtype of `numpy.asarray([0.2, 0.7])`: a Python float list produces a
64-bit float array. -/
def asarrayFloatListDtype : NpDType := NpDType.float64

/-- dtype of `W = theano.shared(numpy.asarray([0.2, 0.7]), 'W')` in the
trivial notebook: `theano.shared` adopts the dtype of its initial
value. -/
def W_dtype : NpDType := asarrayFloatListDtype

/-- dtype of `np.random.normal(scale=0.1, size=shape)`: 64-bit float. -/
def normalDtype : NpDType := NpDType.float64

/-- `values.astype(np.float32)` casts any array to 32-bit float. -/
def astype_float32 (_ : NpDType) : NpDType := NpDType.float32

/-- dtype of `init_values(shape)` in the MLP notebook,
`np.random.normal(scale=0.1, size=shape).astype(np.float32)`. -/
def init_values_dtype : NpDType := astype_float32 normalDtype

/-- dtypes of the six MLP parameters `params = [W1, B1, W2, B2, W3, B3]`,
each created through `init_values`. -/
def mlp_param_dtypes : List NpDType := List.replicate 6 init_values_dtype

/-- A Theano shared variable keeps its creation dtype for its whole
lifetime; an update stores a value of that same dtype.  (The notebook's
final cell prints `float32` for all six parameters after the whole
5000-update run.) -/
def shared_update_dtype (d : NpDType) : NpDType := d

/-- The parameter dtypes after `nSteps` training updates. -/
def dtypes_after (nSteps : ℕ) : List NpDType :=
  (List.map shared_update_dtype)^[nSteps] mlp_param_dtypes

end DT

/-- C9 counterexample: the trivial notebook's parameter `W` is created
from `numpy.asarray([0.2, 0.7])` — a 64-bit float array — so not every
parameter tensor of the repository is an array of 32-bit floats. -/
theorem trivial_weight_dtype_not_float32 :
    DT.W_dtype ≠ DT.NpDType.float32 := by decide

/-- C9 amended: every parameter tensor of the MLP classifier is a 32-bit
float array, created from a zero-mean Gaussian of scale 0.1, and stays a
32-bit float array after any number of updates; the trivial example's
parameter, created from the fixed constants `[0.2, 0.7]`, is a 64-bit
float array instead. -/
theorem param_dtype_invariant :
    (∀ nSteps : ℕ,
      DT.dtypes_after nSteps = List.replicate 6 DT.NpDType.float32) ∧
    DT.W_dtype = DT.NpDType.float64 := by
  constructor
  · intro nSteps
    have hfix : List.map DT.shared_update_dtype DT.mlp_param_dtypes =
        DT.mlp_param_dtypes := by
      decide
    rw [DT.dtypes_after, Function.iterate_fixed hfix nSteps]
    decide
  · decide
